/-
Verification of the nimbleyetmighty request-processing pipeline.

Shallow embedding of the core pipeline:
- `Core` : the router in packages/core/src/router.ts together with the
  internal validation helpers (parseQuery, parseBody, validateInputs)
  from packages/core/src/internal/validation.ts.
- `Runtime2` : the earlier router variant (createRouter returning a bare
  Response) plus the runtime error boundary (setupNimble / defaultOnError).
- `Adapter` : the validator-adapter based validation layer
  (ValidatorAdapter, parseBody with content-type dispatch, validateInput).

JavaScript objects are modelled as association lists in insertion order;
platform primitives (URL parsing, URLPattern matching, request.json() /
formData() / text()) are modelled as data carried by the request value.
Exceptions are modelled with Except; asynchronous suspension is dropped
(the pipeline awaits every stage, so the sequential model is faithful).
-/
import Mathlib

set_option maxHeartbeats 1000000

/-- JavaScript runtime values (the `unknown` type of the source). -/
inductive Val where
  | undef
  | null
  | str (s : String)
  | num (n : Int)
  | bool (b : Bool)
  | arr (elems : List Val)
  | obj (fields : List (String × Val))

/-- A response value. The core never inspects response bodies, so we keep
the two construction forms used by the source (`new Response(text, status)`
and `Response.json(value, status)`). -/
inductive Response where
  | text (body : String) (status : Nat)
  | json (body : Val) (status : Nat)

/-- Query values: a key appearing once is a scalar string, a repeated key
is an ordered string sequence (Record<string, string | string[]>). -/
inductive QVal where
  | scalar (s : String)
  | arr (vs : List String)

/-- The transport body stream: what each platform reader would produce.
`jsonResult` models `await request.json()`, etc.; an `Except.error` is the
exception the platform reader would throw (its message). -/
structure BodyContent where
  jsonResult : Except String Val
  formResult : Except String (List (String × Val))
  textResult : Except String String

/-- The transport request. `searchParams` models the decoded key/value
pairs of `new URL(url).searchParams` in appearance order; the named header
fields model `headers.get(...)`; `bodyStream` is `request.body`
(`none` = null body). -/
structure Request where
  method : String
  url : String
  searchParams : List (String × String)
  contentType : Option String
  cookieHeader : Option String
  xRequestId : Option String
  xCorrelationId : Option String
  bodyStream : Option BodyContent

/-- First-match association lookup (JS property access on our object model). -/
def alookup {α : Type} : List (String × α) → String → Option α
  | [], _ => none
  | (k, v) :: rest, key => if k = key then some v else alookup rest key

/-- `ovOr a b` is `a ?? b`. -/
def ovOr {α : Type} (a b : Option α) : Option α :=
  match a with
  | some v => some v
  | none => b

/-- Replace the value at the first binding of `k`, keeping its position
(JS assignment to an existing property). Identity if `k` is absent. -/
def setA {α : Type} : List (String × α) → String → α → List (String × α)
  | [], _, _ => []
  | (k', v') :: rest, k, v =>
    if k' = k then (k', v) :: rest else (k', v') :: setA rest k v

/-- JS property write `o[k] = v`: override in place if present, else append. -/
def objInsert {α : Type} (acc : List (String × α)) (k : String) (v : α) :
    List (String × α) :=
  match alookup acc k with
  | some _ => setA acc k v
  | none => acc ++ [(k, v)]

/-- `Object.fromEntries`: later duplicates override, first position kept. -/
def objFromEntries {α : Type} (entries : List (String × α)) : List (String × α) :=
  entries.foldl (fun acc kv => objInsert acc kv.1 kv.2) []

/-- Whether `pre` is a leading segment of `l`. -/
def leadsWith : List Char → List Char → Bool
  | [], _ => true
  | _ :: _, [] => false
  | a :: as, b :: bs => a == b && leadsWith as bs

/-- Whether `needle` occurs inside `hay` (character lists). -/
def hasSubstr (needle : List Char) : List Char → Bool
  | [] => leadsWith needle []
  | c :: rest => leadsWith needle (c :: rest) || hasSubstr needle rest

/-- `String.prototype.includes`. -/
def strIncludes (hay needle : String) : Bool :=
  hasSubstr needle.toList hay.toList

/-- JS object spread `{...a, ...b}`: keys of `a` keep their position with
values overridden by `b`; keys only in `b` are appended in order. -/
def recMerge (a b : List (String × Val)) : List (String × Val) :=
  a.map (fun kv =>
    match alookup b kv.1 with
    | some v => (kv.1, v)
    | none => kv)
  ++ b.filter (fun kv => (alookup a kv.1).isNone)

/-- cookies.ts `parseCookies`: split the Cookie header on ";", then each
piece on "=" (first "=" separates, the rest are rejoined). -/
def parseCookies (cookieHeader : Option String) : List (String × String) :=
  match cookieHeader with
  | none => []
  | some s =>
    if s = "" then []
    else
      objFromEntries ((s.split (fun c => c = ';')).map (fun c =>
        match (c.trim.split (fun ch => ch = '=')) with
        | [] => ("", "")
        | key :: val => (key, String.intercalate "=" val)))

/-- Encode a raw path-parameter record (string | undefined values) as a
runtime value for schema consumption. -/
def paramsToVal (ps : List (String × Option String)) : Val :=
  .obj (ps.map (fun kv =>
    (kv.1, match kv.2 with
      | some s => Val.str s
      | none => Val.undef)))

/-- Encode a parsed query record as a runtime value. -/
def qvalToVal : QVal → Val
  | .scalar s => .str s
  | .arr l => .arr (l.map Val.str)

def queryToVal (q : List (String × QVal)) : Val :=
  .obj (q.map (fun kv => (kv.1, qvalToVal kv.2)))

/-- Consecutive indices i, i+1, ..., i+n-1 (used to report which guards ran). -/
def natRangeFrom (i : Nat) : Nat → List Nat
  | 0 => []
  | n + 1 => i :: natRangeFrom (i + 1) n

namespace Core

/-- internal/validation.ts `parseQuery` step: first occurrence stores a
scalar, a second occurrence turns it into a two-element array, further
occurrences push onto the array. -/
def qInsert (acc : List (String × QVal)) (k v : String) : List (String × QVal) :=
  match alookup acc k with
  | none => acc ++ [(k, .scalar v)]
  | some (.scalar s) => setA acc k (.arr [s, v])
  | some (.arr l) => setA acc k (.arr (l ++ [v]))

/-- internal/validation.ts `parseQuery`: fold the URL's search parameters. -/
def parseQuery (searchParams : List (String × String)) : List (String × QVal) :=
  searchParams.foldl (fun acc kv => qInsert acc kv.1 kv.2) []

/-- internal/validation.ts `parseBody`: null body yields undefined without
touching the stream; otherwise `request.json()` is awaited once, and a JSON
failure is swallowed to undefined. The second component counts how many
times the body stream was consumed. -/
def parseBody (req : Request) : Val × Nat :=
  match req.bodyStream with
  | none => (.undef, 0)
  | some b =>
    match b.jsonResult with
    | .ok v => (v, 1)
    | .error _ => (.undef, 1)

/-- A path segment of a schema issue ((string | number)[]). -/
inductive PathSeg where
  | str (s : String)
  | num (n : Nat)

/-- An issue as produced by a schema's safeParse. -/
structure RawIssue where
  path : List PathSeg
  message : String

/-- route.ts `SafeParseResult`. -/
inductive SPRes where
  | success (data : Val)
  | failure (issues : List RawIssue)

/-- route.ts `Schema`: anything with a safeParse method. -/
abbrev Schema := Val → SPRes

/-- route.ts `RequestSchemas`. -/
structure RequestSchemas where
  params : Option Schema
  query : Option Schema
  body : Option Schema

inductive Part where
  | params | query | body

/-- route.ts `ValidationIssue`. -/
structure ValidationIssue where
  part : Part
  path : List PathSeg
  message : String

/-- The `raw` triple handed to validateInputs ({params, query, body?});
undefined is encoded as `Val.undef`. -/
structure RawTriple where
  params : Val
  query : Val
  body : Val

/-- route.ts `InputResult`: all-or-nothing validated input. -/
inductive InputResult where
  | ok (params query body : Val)
  | fail (failed : List Part) (issues : List ValidationIssue) (raw : RawTriple)

def tagIssues (p : Part) (is : List RawIssue) : List ValidationIssue :=
  is.map (fun i => ⟨p, i.path, i.message⟩)

/-- One part of validateInputs: no schema passes the raw value through and
never errors; a declared schema contributes its data on success, or marks
the part failed and tags its issues on failure. -/
def runPart (sch : Option Schema) (p : Part) (v : Val) :
    Val × List Part × List ValidationIssue :=
  match sch with
  | none => (v, [], [])
  | some f =>
    match f v with
    | .success d => (d, [], [])
    | .failure is => (Val.undef, [p], tagIssues p is)

/-- internal/validation.ts `validateInputs`: with no schemas object,
short-circuit to ok with the raw values; otherwise validate params, query
and body independently, aggregating the failed parts and their issues, and
fail (exposing only raw values) when anything failed. -/
def validateInputs (schemas : Option RequestSchemas) (raw : RawTriple) : InputResult :=
  match schemas with
  | none => .ok raw.params raw.query raw.body
  | some s =>
    let pr := runPart s.params .params raw.params
    let qr := runPart s.query .query raw.query
    let br := runPart s.body .body raw.body
    let failed := pr.2.1 ++ qr.2.1 ++ br.2.1
    let issues := pr.2.2 ++ qr.2.2 ++ br.2.2
    if 0 < failed.length then .fail failed issues raw
    else .ok pr.1 qr.1 br.1

/-- route.ts `RawValues`. -/
structure RawValues where
  params : List (String × Option String)
  query : List (String × QVal)
  cookies : List (String × String)
  body : Val

/-- route.ts `Context`. -/
structure Context where
  req : Request
  raw : RawValues
  input : InputResult
  locals : List (String × Val)

/-- Thrown values are opaque; we keep their message. -/
abbrev Fault := String

/-- route.ts `GuardResult`. -/
inductive GuardResult where
  | allow (locals : Option (List (String × Val)))
  | deny (response : Response)

abbrev GuardFn := Context → Except Fault GuardResult

abbrev HandlerFn := Context → Except Fault Response

/-- router.ts `OnRequestHandler` (void | locals patch). -/
abbrev OnRequestHandler := Context → Except Fault (Option (List (String × Val)))

/-- route.ts `Handler`; `exec` models the URLPattern compiled from `path`
(a platform primitive): it yields the pathname groups on a match. -/
structure Handler where
  method : String
  path : String
  exec : String → Option (List (String × Option String))
  handler : HandlerFn
  guards : Option (List GuardFn)
  request : Option RequestSchemas

structure RouteMatch where
  handler : Handler
  params : List (String × Option String)

/-- router.ts `match`: first route whose method matches ("*" matches all)
and whose pattern matches the URL. -/
def matchRoutes : List Handler → String → String → Option RouteMatch
  | [], _, _ => none
  | h :: rest, method, url =>
    if h.method ≠ "*" ∧ h.method ≠ method then matchRoutes rest method url
    else
      match h.exec url with
      | some groups => some ⟨h, groups⟩
      | none => matchRoutes rest method url

/-- Patch merge shared by the hook and the guard loop: a returned patch
produces a fresh context whose locals are `{...context.locals, ...patch}`;
an absent patch keeps the context. -/
def applyPatch (ctx : Context) : Option (List (String × Val)) → Context
  | some p => { ctx with locals := recMerge ctx.locals p }
  | none => ctx

inductive GuardOutcome where
  | allowed (ctx : Context)
  | denied (resp : Response) (ctx : Context)
  | fault (e : Fault) (ctx : Context)

/-- router.ts guard loop: each guard sees the current context; a deny stops
the loop with that response and the context it observed; an allow merges the
optional locals patch into a fresh context; a throw carries the observed
context out. Also returns the indices of the guards that actually ran and
the contexts each of them observed. -/
def runGuardsAux (i : Nat) (gs : List GuardFn) (ctx : Context) :
    GuardOutcome × List Nat × List Context :=
  match gs with
  | [] => (.allowed ctx, [], [])
  | g :: rest =>
    match g ctx with
    | .error e => (.fault e ctx, [i], [ctx])
    | .ok (.deny r) => (.denied r ctx, [i], [ctx])
    | .ok (.allow p) =>
      let out := runGuardsAux (i + 1) rest (applyPatch ctx p)
      (out.1, i :: out.2.1, ctx :: out.2.2)

/-- How a handle run finished. -/
inductive FinishKind where
  | notFound | hookFault | guardDenied | guardFault | handlerDone | handlerFault

/-- The observable outcome of router.ts `handle`: the result (a response
with its final context, or a fault with the context the thrower observed,
when one was attached), plus the run's validation result, the number of
core reads of the body stream, and which producers ran with which contexts. -/
structure HandleResult where
  result : Except (Fault × Option Context) (Response × Context)
  validated : InputResult
  bodyReads : Nat
  hookCtx : Option Context
  guardTrace : List Nat
  guardCtxs : List Context
  handlerRan : Bool
  handlerCtx : Option Context
  finish : FinishKind

/-- router.ts body extraction: the stream is only parsed when the matched
route declares a body schema. -/
def extractBody (m : RouteMatch) (req : Request) : Val × Nat :=
  match m.handler.request with
  | some rs =>
    match rs.body with
    | some _ => parseBody req
    | none => (Val.undef, 0)
  | none => (Val.undef, 0)

/-- router.ts guard phase: guards run only when the matched route has a
non-empty guard list. -/
def guardPhase (m : RouteMatch) (ctx : Context) :
    GuardOutcome × List Nat × List Context :=
  match m.handler.guards with
  | some gs => if 0 < gs.length then runGuardsAux 0 gs ctx else (.allowed ctx, [], [])
  | none => (.allowed ctx, [], [])

/-- router.ts after the hook: run the guard chain; a deny is returned as
the final response with the denier's context and the handler never runs;
otherwise the handler runs on the accumulated context (its throw gets the
context attached). -/
def handleAfterHook (m : RouteMatch) (input : InputResult) (reads : Nat)
    (hookCtx : Option Context) (ctx1 : Context) : HandleResult :=
  match guardPhase m ctx1 with
  | (.denied r c, tr, cs) =>
    ⟨.ok (r, c), input, reads, hookCtx, tr, cs, false, none, .guardDenied⟩
  | (.fault e c, tr, cs) =>
    ⟨.error (e, some c), input, reads, hookCtx, tr, cs, false, none, .guardFault⟩
  | (.allowed c, tr, cs) =>
    match m.handler.handler c with
    | .ok resp => ⟨.ok (resp, c), input, reads, hookCtx, tr, cs, true, some c, .handlerDone⟩
    | .error e => ⟨.error (e, some c), input, reads, hookCtx, tr, cs, true, some c, .handlerFault⟩

/-- router.ts initial context construction after extraction and validation:
raw facts (params, query, cookies, body), the validation result, and empty
locals. -/
def initialContext (m : RouteMatch) (req : Request) : Context :=
  ⟨req,
   ⟨m.params, parseQuery req.searchParams, parseCookies req.cookieHeader,
    (extractBody m req).1⟩,
   validateInputs m.handler.request
     ⟨paramsToVal m.params, queryToVal (parseQuery req.searchParams),
      (extractBody m req).1⟩,
   []⟩

/-- router.ts `handle` on a matched route: extract cookies and query, parse
the body only if a body schema is declared, validate, build the initial
context with empty locals, run the optional onRequest hook (its patch is
merged immutably; its throw escapes without an attached context), then the
guard phase and the handler. -/
def handleMatched (m : RouteMatch) (req : Request) (onReq : Option OnRequestHandler) :
    HandleResult :=
  let ctx0 := initialContext m req
  match onReq with
  | none => handleAfterHook m ctx0.input (extractBody m req).2 none ctx0
  | some f =>
    match f ctx0 with
    | .error e =>
      ⟨.error (e, none), ctx0.input, (extractBody m req).2, some ctx0, [], [], false, none,
       .hookFault⟩
    | .ok patch =>
      handleAfterHook m ctx0.input (extractBody m req).2 (some ctx0) (applyPatch ctx0 patch)

/-- router.ts `handle`: no match yields a 404 with a minimal context and the
body stream untouched; a match runs the pipeline. -/
def handle (handlers : List Handler) (req : Request) (onReq : Option OnRequestHandler) :
    HandleResult :=
  match matchRoutes handlers req.method req.url with
  | none =>
    let nfCtx : Context := ⟨req, ⟨[], [], [], .undef⟩, .ok (.obj []) (.obj []) (.obj []), []⟩
    ⟨.ok (.text "Not Found" 404, nfCtx), nfCtx.input, 0, none, [], [], false, none, .notFound⟩
  | some m => handleMatched m req onReq

end Core

namespace Runtime2

/-- Earlier router iteration's guard loop (no try/catch): a throw escapes
unchanged, a deny returns its response, an allow merges the locals patch. -/
def runGuards2 (gs : List Core.GuardFn) (ctx : Core.Context) :
    Except Core.Fault (Sum Response Core.Context) :=
  match gs with
  | [] => .ok (.inr ctx)
  | g :: rest =>
    match g ctx with
    | .error e => .error e
    | .ok (.deny r) => .ok (.inl r)
    | .ok (.allow p) =>
      let next :=
        match p with
        | some l => { ctx with locals := recMerge ctx.locals l }
        | none => ctx
      runGuards2 rest next

/-- Earlier `createRouter(...).handle`: parses the body unconditionally,
builds the context, runs guards (deny returns its response), then the
handler; guard and handler throws escape to the caller. -/
def handle2 (handlers : List Core.Handler) (req : Request) :
    Except Core.Fault Response :=
  match Core.matchRoutes handlers req.method req.url with
  | none => .ok (.text "Not Found" 404)
  | some m =>
    let cookies := parseCookies req.cookieHeader
    let query := Core.parseQuery req.searchParams
    let body := (Core.parseBody req).1
    let input := Core.validateInputs m.handler.request
      ⟨paramsToVal m.params, queryToVal query, body⟩
    let ctx : Core.Context := ⟨req, ⟨m.params, query, cookies, body⟩, input, []⟩
    let g :=
      match m.handler.guards with
      | some gs => if 0 < gs.length then runGuards2 gs ctx else .ok (.inr ctx)
      | none => .ok (.inr ctx)
    match g with
    | .error e => .error e
    | .ok (.inl r) => .ok r
    | .ok (.inr c) => m.handler.handler c

/-- runtime.ts `ErrorContext`. -/
structure ErrorContext where
  request : Request
  requestId : String
  error : Core.Fault

abbrev OnErrorHandler := ErrorContext → Response

/-- runtime.ts `defaultOnError`: logs and returns a sanitized 500 whose
content does not depend on the fault. -/
def defaultOnError : OnErrorHandler := fun _ =>
  .json (.obj [("error", .str "Internal Server Error")]) 500

/-- The console.error line produced by defaultOnError. -/
def defaultOnErrorLog (ctx : ErrorContext) : String :=
  "[" ++ ctx.requestId ++ "] Unexpected error during request handling: " ++ ctx.error

/-- runtime.ts `NimbleConfig`. -/
structure NimbleConfig where
  handlers : List Core.Handler
  onError : Option OnErrorHandler

/-- setupNimble accepts a bare handler array (legacy) or a config object. -/
inductive NimbleInit where
  | list (handlers : List Core.Handler)
  | config (cfg : NimbleConfig)

def initHandlers : NimbleInit → List Core.Handler
  | .list hs => hs
  | .config c => c.handlers

def initOnError : NimbleInit → OnErrorHandler
  | .list _ => defaultOnError
  | .config c => c.onError.getD defaultOnError

/-- runtime.ts request-id resolution:
`x-request-id ?? x-correlation-id ?? crypto.randomUUID()`; the platform
UUID is passed in as `uuid`. -/
def resolveErrorRequestId (req : Request) (uuid : String) : String :=
  match req.xRequestId with
  | some v => v
  | none =>
    match req.xCorrelationId with
    | some v => v
    | none => uuid

/-- runtime.ts `setupNimble(...).fetch`: one try/catch around the whole
pipeline; a normal result passes through, any escaped fault is converted
exactly once into the configured (or default) error handler's response. -/
def nimbleFetch (init : NimbleInit) (req : Request) (uuid : String) : Response :=
  match handle2 (initHandlers init) req with
  | .ok resp => resp
  | .error e => initOnError init ⟨req, resolveErrorRequestId req uuid, e⟩

end Runtime2

namespace Adapter

/-- validation.ts `ValidationError` (adapter iteration): path is string[]. -/
structure ValidationError where
  path : List String
  message : String

/-- The uniform `{ok:true, data} | {ok:false, errors}` union used both by
`parseBody` and by `ValidatorAdapter.parse`. -/
inductive ParseOutcome where
  | ok (data : Val)
  | err (errors : List ValidationError)

/-- validation.ts `ValidatorAdapter.parse(schema, data)`; the opaque schema
object is itself a runtime value. -/
abbrev ValidatorAdapter := Val → Val → ParseOutcome

/-- validation.ts `InputConfig`: the optional schema objects per part. -/
structure InputConfig where
  body : Option Val
  query : Option Val
  params : Option Val

/-- validation.ts `ValidatedInput`. -/
inductive ValidatedInput where
  | ok (body query params : Val)
  | fail (errors : List ValidationError)

/-- `await request.json()`: a null body rejects like the platform does. -/
def reqJson (req : Request) : Except String Val :=
  match req.bodyStream with
  | some b => b.jsonResult
  | none => .error "Unexpected end of JSON input"

/-- `await request.formData()`. -/
def reqForm (req : Request) : Except String (List (String × Val)) :=
  match req.bodyStream with
  | some b => b.formResult
  | none => .error "Could not parse content as FormData"

/-- `await request.text()`: a null body reads as the empty string. -/
def reqText (req : Request) : Except String String :=
  match req.bodyStream with
  | some b => b.textResult
  | none => .ok ""

/-- The platform read selected by parseBody's content-type dispatch
("" when the header is absent): JSON for application/json, a form parse
(later duplicate keys override) for urlencoded/multipart, raw text for
text/* and as the fallback. -/
def bodyRead (req : Request) : Except String Val :=
  let contentType := req.contentType.getD ""
  if strIncludes contentType "application/json" then reqJson req
  else if strIncludes contentType "application/x-www-form-urlencoded"
      || strIncludes contentType "multipart/form-data" then
    (reqForm req).map (fun entries => Val.obj (objFromEntries entries))
  else if strIncludes contentType "text/" then (reqText req).map Val.str
  else (reqText req).map Val.str

/-- validation.ts `parseBody` (adapter iteration): run the dispatched
platform read; a platform throw never escapes: it becomes one
ValidationError at path ["body"], with message "Invalid JSON" when the
thrown message is JSON-specific and the underlying message otherwise. -/
def parseBody (req : Request) : ParseOutcome :=
  match bodyRead req with
  | .ok d => .ok d
  | .error msg =>
    .err [⟨["body"], if strIncludes msg "JSON" then "Invalid JSON" else msg⟩]

/-- validation.ts `parseQuery` (adapter iteration), first pass: collect all
values per key in appearance order. -/
def collectKeyValues (ps : List (String × String)) : List (String × List String) :=
  ps.foldl (fun acc kv =>
    match alookup acc kv.1 with
    | some vs => setA acc kv.1 (vs ++ [kv.2])
    | none => acc ++ [(kv.1, [kv.2])]) []

/-- validation.ts `parseQuery` (adapter iteration), second pass: one value
stays a scalar, several become an array. -/
def parseQuery (ps : List (String × String)) : List (String × Val) :=
  (collectKeyValues ps).map (fun kv =>
    (kv.1,
      match kv.2 with
      | [v] => Val.str v
      | vs => Val.arr (vs.map Val.str)))

/-- One optional part in validateInput: a declared schema without a
configured validator throws; otherwise the validator runs on the part's
data, contributing the validated value or its errors. -/
def runSchemaPart (sch : Option Val) (validator : Option ValidatorAdapter)
    (missing : String) (data : Val) : Except String (Val × List ValidationError) :=
  match sch with
  | none => .ok (.undef, [])
  | some schema =>
    match validator with
    | none => .error missing
    | some v =>
      match v schema data with
      | .ok d => .ok (d, [])
      | .err es => .ok (.undef, es)

/-- validation.ts `validateInput`: no input config short-circuits to ok
with undefined for every part; otherwise body (parsed first, its parse
failure folded in as errors), query and params are validated in order,
their errors aggregated, and the result is ok:false with the aggregate
when anything failed, else ok with the three validated values. A declared
part without a configured validator throws at request time. -/
def validateInput (req : Request) (params : List (String × Option String))
    (inputConfig : Option InputConfig) (validator : Option ValidatorAdapter) :
    Except String ValidatedInput :=
  match inputConfig with
  | none => .ok (.ok .undef .undef .undef)
  | some cfg =>
    let bodyStep : Except String (Val × List ValidationError) :=
      match cfg.body with
      | none => .ok (.undef, [])
      | some schema =>
        match validator with
        | none => .error "Validator required when using input.body schema"
        | some v =>
          match parseBody req with
          | .err es => .ok (.undef, es)
          | .ok d =>
            match v schema d with
            | .ok d' => .ok (d', [])
            | .err es => .ok (.undef, es)
    match bodyStep with
    | .error e => .error e
    | .ok (body, e1) =>
      match runSchemaPart cfg.query validator
          "Validator required when using input.query schema"
          (Val.obj (parseQuery req.searchParams)) with
      | .error e => .error e
      | .ok (query, e2) =>
        match runSchemaPart cfg.params validator
            "Validator required when using input.params schema"
            (paramsToVal params) with
        | .error e => .error e
        | .ok (vparams, e3) =>
          let errors := e1 ++ e2 ++ e3
          if 0 < errors.length then .ok (.fail errors)
          else .ok (.ok body query vparams)

end Adapter

/-
Statement helpers: declarative descriptions that the claims compare the
embedded code against.
-/

/-- A guard that always allows and contributes a fixed locals patch. -/
def constAllow (p : List (String × Val)) : Core.GuardFn :=
  fun _ => .ok (.allow (some p))

/-
Concrete fixtures used by the witnesses.
-/

/-- A GET request with no query, no headers and a null body. -/
def wReq : Request :=
  ⟨"GET", "http://h/a", [], none, none, none, none, none⟩

/-- A POST request carrying a JSON body stream. -/
def wReqJson : Request :=
  ⟨"POST", "http://h/a", [], some "application/json", none, none, none,
   some ⟨.ok (.num 5), .error "form", .ok "5"⟩⟩

/-- A POST request whose JSON body stream is malformed. -/
def wReqBadJson : Request :=
  ⟨"POST", "http://h/a", [], some "application/json", none, none, none,
   some ⟨.error "Unexpected token i is not valid JSON", .error "form",
     .ok "invalid"⟩⟩

/-- A POST request whose multipart body fails the platform form reader
with a message that is not JSON-specific. -/
def wReqBadForm : Request :=
  ⟨"POST", "http://h/a", [], some "multipart/form-data", none, none, none,
   some ⟨.error "Unexpected end of input",
     .error "Could not parse content as FormData", .ok ""⟩⟩

/-- A schema that rejects every value with one issue. -/
def wFailSchema : Core.Schema :=
  fun _ => .failure [⟨[Core.PathSeg.str "id"], "Expected number"⟩]

/-- A second always-failing schema with a different issue. -/
def wFailSchemaB : Core.Schema :=
  fun _ => .failure [⟨[], "Required"⟩]

def wAllowGuard : Core.GuardFn := fun _ => .ok (.allow none)

def wDenyGuard : Core.GuardFn := fun _ => .ok (.deny (.text "denied" 403))

def wNeverGuard : Core.GuardFn := fun _ => .error "guard after deny ran"

def wThrowGuard : Core.GuardFn := fun _ => .error "boom"

def wOkHandlerFn : Core.HandlerFn := fun _ => .ok (.text "ok" 200)

/-- Route with an always-failing params schema and a guard chain whose
second guard denies; the third guard and the handler must never run. -/
def wHandler : Core.Handler :=
  ⟨"GET", "/a", fun _ => some [], wOkHandlerFn,
   some [wAllowGuard, wDenyGuard, wNeverGuard],
   some ⟨some wFailSchema, none, none⟩⟩

/-- Route declaring no body schema (params schema only). -/
def wNoBodyHandler : Core.Handler :=
  ⟨"POST", "/a", fun _ => some [], wOkHandlerFn, none,
   some ⟨some wFailSchema, none, none⟩⟩

/-- Route used by the locals-accumulation witness: the hook writes
role:"user", the single guard overrides it with role:"admin". -/
def wC7Handler : Core.Handler :=
  ⟨"GET", "/a", fun _ => some [], wOkHandlerFn,
   some [constAllow [("role", Val.str "admin")]], none⟩

/-- Route whose only guard throws (for the error-boundary witness). -/
def wThrowHandler : Core.Handler :=
  ⟨"GET", "/a", fun _ => some [], wOkHandlerFn, some [wThrowGuard], none⟩

/-- Locals accumulation by repeated immutable merge. -/
def mergeAll (l : List (String × Val)) (ps : List (List (String × Val))) :
    List (String × Val) :=
  ps.foldl recMerge l

/-- The value written by the last patch in the sequence that sets `k`. -/
def lastW (patches : List (List (String × Val))) (k : String) : Option Val :=
  patches.foldl (fun acc p => ovOr (alookup p k) acc) none

/-- All values carried by key `k` in the search parameters, in appearance
order. -/
def valuesOf (ps : List (String × String)) (k : String) : List String :=
  (ps.filter (fun kv => kv.1 = k)).map (fun kv => kv.2)

/-- The scalar/sequence convention: no occurrence is absent, one occurrence
is a scalar, several are the ordered sequence. -/
def collapse : List String → Option QVal
  | [] => none
  | [v] => some (.scalar v)
  | v :: vs => some (.arr (v :: vs))

/-
Lemmas about the object model.
-/

theorem alookup_append {α : Type} (xs ys : List (String × α)) (k : String) :
    alookup (xs ++ ys) k = ovOr (alookup xs k) (alookup ys k) := by
  induction xs with
  | nil => simp [alookup, ovOr]
  | cons kv rest ih =>
    obtain ⟨k', v⟩ := kv
    by_cases h : k' = k <;> simp [alookup, h, ovOr, ih]

theorem alookup_map_override (a b : List (String × Val)) (k : String) :
    alookup (a.map (fun kv =>
      match alookup b kv.1 with
      | some v => (kv.1, v)
      | none => kv)) k =
    (alookup a k).map (fun v => (alookup b k).getD v) := by
  induction a with
  | nil => simp [alookup]
  | cons kv rest ih =>
    obtain ⟨k', v⟩ := kv
    by_cases h : k' = k
    · subst h
      cases hb : alookup b k' <;> simp [alookup, hb]
    · cases hb : alookup b k' <;> simp [alookup, h, hb, ih]

theorem alookup_filter_notin (a b : List (String × Val)) (k : String) :
    alookup (b.filter (fun kv => (alookup a kv.1).isNone)) k =
      if (alookup a k).isNone then alookup b k else none := by
  induction b with
  | nil => simp [alookup]
  | cons kv rest ih =>
    obtain ⟨k', v⟩ := kv
    by_cases h : k' = k
    · subst h
      cases ha : alookup a k' <;> simp [alookup, List.filter, ha, ih]
    · cases ha' : alookup a k' <;> simp [alookup, List.filter, h, ha', ih]

/-- The JS spread `{...a, ...b}` looks up as `b ?? a`. -/
theorem recMerge_alookup (a b : List (String × Val)) (k : String) :
    alookup (recMerge a b) k = ovOr (alookup b k) (alookup a k) := by
  unfold recMerge
  rw [alookup_append, alookup_map_override, alookup_filter_notin]
  cases ha : alookup a k <;> cases hb : alookup b k <;> simp [ovOr, Option.getD]

theorem ovOr_none_right {α : Type} (a : Option α) : ovOr a none = a := by
  cases a <;> rfl

theorem ovOr_assoc {α : Type} (a b c : Option α) :
    ovOr (ovOr a b) c = ovOr a (ovOr b c) := by
  cases a <;> rfl

theorem lastW_cons_general (ps : List (List (String × Val))) (k : String)
    (a : Option Val) :
    ps.foldl (fun acc p => ovOr (alookup p k) acc) a = ovOr (lastW ps k) a := by
  induction ps generalizing a with
  | nil => simp [lastW, ovOr]
  | cons p ps ih =>
    simp only [lastW, List.foldl_cons] at *
    rw [ih, ih (ovOr (alookup p k) none), ovOr_assoc]
    cases alookup p k <;> simp [ovOr]

theorem lastW_cons (p : List (String × Val)) (ps : List (List (String × Val)))
    (k : String) :
    lastW (p :: ps) k = ovOr (lastW ps k) (alookup p k) := by
  simp only [lastW, List.foldl_cons]
  rw [lastW_cons_general, ovOr_none_right]
  rfl

/-- Accumulated locals resolve each key to the last writer, falling back to
the seed. -/
theorem mergeAll_alookup (ps : List (List (String × Val)))
    (l : List (String × Val)) (k : String) :
    alookup (mergeAll l ps) k = ovOr (lastW ps k) (alookup l k) := by
  induction ps generalizing l with
  | nil => simp [mergeAll, lastW, ovOr]
  | cons p ps ih =>
    rw [show mergeAll l (p :: ps) = mergeAll (recMerge l p) ps from rfl,
      ih, recMerge_alookup, lastW_cons, ovOr_assoc]

/-
Lemmas about query extraction (Core.parseQuery).
-/

theorem alookup_setA_self {α : Type} (xs : List (String × α)) (k : String) (v : α) :
    alookup (setA xs k v) k = (alookup xs k).map (fun _ => v) := by
  induction xs with
  | nil => simp [setA, alookup]
  | cons kv rest ih =>
    obtain ⟨k', v'⟩ := kv
    by_cases h : k' = k <;> simp [setA, alookup, h, ih]

theorem alookup_setA_other {α : Type} (xs : List (String × α)) (k k' : String)
    (v : α) (h : k ≠ k') :
    alookup (setA xs k v) k' = alookup xs k' := by
  induction xs with
  | nil => simp [setA]
  | cons kv rest ih =>
    obtain ⟨k'', v''⟩ := kv
    by_cases h2 : k'' = k
    · subst h2
      simp [setA, alookup, h, ih]
    · by_cases h3 : k'' = k' <;> simp [setA, alookup, h2, h3, ih, Ne.symm h]

theorem alookup_qInsert_other (acc : List (String × QVal)) (k v : String)
    (k' : String) (h : k ≠ k') :
    alookup (Core.qInsert acc k v) k' = alookup acc k' := by
  unfold Core.qInsert
  cases ha : alookup acc k with
  | none => rw [alookup_append]; simp [alookup, h, ovOr_none_right]
  | some q => cases q <;> simp [alookup_setA_other _ _ _ _ h]

theorem alookup_qInsert_self (acc : List (String × QVal)) (k v : String) :
    alookup (Core.qInsert acc k v) k =
      some (match alookup acc k with
        | none => QVal.scalar v
        | some (.scalar s) => QVal.arr [s, v]
        | some (.arr l) => QVal.arr (l ++ [v])) := by
  unfold Core.qInsert
  cases ha : alookup acc k with
  | none => rw [alookup_append, ha]; simp [alookup, ovOr]
  | some q => cases q <;> simp [alookup_setA_self, ha]

theorem valuesOf_append_one (ps : List (String × String)) (k k' v : String) :
    valuesOf (ps ++ [(k', v)]) k =
      valuesOf ps k ++ (if k' = k then [v] else []) := by
  unfold valuesOf
  rw [List.filter_append]
  by_cases h : k' = k <;> simp [h]

/-- The extracted query record maps each key to the scalar/sequence
collapse of its occurrences. -/
theorem parseQuery_alookup (ps : List (String × String)) (k : String) :
    alookup (Core.parseQuery ps) k = collapse (valuesOf ps k) := by
  induction ps using List.reverseRecOn with
  | nil => simp [Core.parseQuery, valuesOf, collapse, alookup]
  | append_singleton ps p ih =>
    obtain ⟨k', v⟩ := p
    have hq : Core.parseQuery (ps ++ [(k', v)]) =
        Core.qInsert (Core.parseQuery ps) k' v := by
      simp [Core.parseQuery, List.foldl_append]
    rw [hq, valuesOf_append_one]
    by_cases h : k' = k
    · subst h
      rw [alookup_qInsert_self, ih]
      rcases hvs : valuesOf ps k' with _ | ⟨w, _ | ⟨w2, rest⟩⟩ <;> simp [collapse]
    · rw [alookup_qInsert_other _ _ _ _ h, ih]
      simp [h]

/-
Lemmas about the guard loop and the handle pipeline (Core).
-/

theorem applyPatch_req (ctx : Core.Context) (p : Option (List (String × Val))) :
    (Core.applyPatch ctx p).req = ctx.req := by
  cases p <;> rfl

theorem applyPatch_raw (ctx : Core.Context) (p : Option (List (String × Val))) :
    (Core.applyPatch ctx p).raw = ctx.raw := by
  cases p <;> rfl

theorem applyPatch_input (ctx : Core.Context) (p : Option (List (String × Val))) :
    (Core.applyPatch ctx p).input = ctx.input := by
  cases p <;> rfl

/-- Every context observed by a guard differs from the context entering
the loop only in its locals: request, raw facts and validated input are
already in place and never change. -/
theorem runGuardsAux_ctxs_core (gs : List Core.GuardFn) (i : Nat)
    (ctx : Core.Context) :
    ∀ c ∈ (Core.runGuardsAux i gs ctx).2.2,
      c.req = ctx.req ∧ c.raw = ctx.raw ∧ c.input = ctx.input := by
  induction gs generalizing i ctx with
  | nil => simp [Core.runGuardsAux]
  | cons g rest ih =>
    intro c hc
    unfold Core.runGuardsAux at hc
    cases hg : g ctx with
    | error e =>
      rw [hg] at hc
      simp at hc
      subst hc
      exact ⟨rfl, rfl, rfl⟩
    | ok gr =>
      cases gr with
      | deny r =>
        rw [hg] at hc
        simp at hc
        subst hc
        exact ⟨rfl, rfl, rfl⟩
      | allow p =>
        rw [hg] at hc
        simp at hc
        rcases hc with rfl | hc
        · exact ⟨rfl, rfl, rfl⟩
        · have h := ih (i + 1) (Core.applyPatch ctx p) c hc
          rw [applyPatch_req, applyPatch_raw, applyPatch_input] at h
          exact h

/-- A denial at relative position k: exactly the guards 0..k ran, the k-th
guard returned the deny on the context recorded for it, and no later guard
appears in the trace. -/
theorem runGuardsAux_denied (gs : List Core.GuardFn) (i : Nat)
    (ctx : Core.Context) (r : Response) (c : Core.Context)
    (tr : List Nat) (cs : List Core.Context)
    (h : Core.runGuardsAux i gs ctx = (.denied r c, tr, cs)) :
    ∃ k, tr = natRangeFrom i (k + 1) ∧ cs.length = k + 1 ∧ cs[k]? = some c ∧
      ∃ g, gs[k]? = some g ∧ g c = .ok (.deny r) := by
  induction gs generalizing i ctx tr cs with
  | nil => simp [Core.runGuardsAux] at h
  | cons g rest ih =>
    unfold Core.runGuardsAux at h
    cases hg : g ctx with
    | error e =>
      rw [hg] at h
      simp at h
    | ok gr =>
      cases gr with
      | deny r' =>
        rw [hg] at h
        simp at h
        obtain ⟨⟨hr, hc⟩, htr, hcs⟩ := h
        subst hr; subst hc; subst htr; subst hcs
        exact ⟨0, rfl, rfl, by simp, g, by simp, hg⟩
      | allow p =>
        rw [hg] at h
        simp at h
        obtain ⟨ho, htr, hcs⟩ := h
        have hrec : Core.runGuardsAux (i + 1) rest (Core.applyPatch ctx p) =
            (.denied r c,
             (Core.runGuardsAux (i + 1) rest (Core.applyPatch ctx p)).2.1,
             (Core.runGuardsAux (i + 1) rest (Core.applyPatch ctx p)).2.2) := by
          rw [← ho]
        obtain ⟨k, htr', hlen', hcs', g', hg', hdeny⟩ :=
          ih (i + 1) (Core.applyPatch ctx p) _ _ hrec
        refine ⟨k + 1, ?_, ?_, ?_, g', ?_, hdeny⟩
        · rw [← htr, show natRangeFrom i (k + 1 + 1) = i :: natRangeFrom (i + 1) (k + 1)
            from rfl, htr']
        · rw [← hcs]
          simp [hlen']
        · rw [← hcs]
          simpa using hcs'
        · simpa using hg'

theorem guardPhase_denied (m : Core.RouteMatch) (ctx : Core.Context)
    (r : Response) (c : Core.Context) (tr : List Nat) (cs : List Core.Context)
    (h : Core.guardPhase m ctx = (.denied r c, tr, cs)) :
    ∃ gs, m.handler.guards = some gs ∧
      Core.runGuardsAux 0 gs ctx = (.denied r c, tr, cs) := by
  unfold Core.guardPhase at h
  cases hgs : m.handler.guards with
  | none =>
    rw [hgs] at h
    simp at h
  | some gs =>
    rw [hgs] at h
    replace h : (if 0 < gs.length then Core.runGuardsAux 0 gs ctx
        else (Core.GuardOutcome.allowed ctx, [], [])) =
        (Core.GuardOutcome.denied r c, tr, cs) := h
    by_cases hlen : 0 < gs.length
    · rw [if_pos hlen] at h
      exact ⟨gs, rfl, h⟩
    · rw [if_neg hlen] at h
      simp at h

theorem guardPhase_ctxs_core (m : Core.RouteMatch) (ctx : Core.Context) :
    ∀ c ∈ (Core.guardPhase m ctx).2.2,
      c.req = ctx.req ∧ c.raw = ctx.raw ∧ c.input = ctx.input := by
  unfold Core.guardPhase
  cases m.handler.guards with
  | none => simp
  | some gs =>
    show ∀ c ∈ (if 0 < gs.length then Core.runGuardsAux 0 gs ctx
        else (Core.GuardOutcome.allowed ctx, [], [])).2.2, _
    by_cases hlen : 0 < gs.length
    · rw [if_pos hlen]
      exact runGuardsAux_ctxs_core gs 0 ctx
    · rw [if_neg hlen]
      simp

theorem runGuardsAux_trace_ne_nil (i : Nat) (g : Core.GuardFn)
    (rest : List Core.GuardFn) (ctx : Core.Context) :
    (Core.runGuardsAux i (g :: rest) ctx).2.1 ≠ [] := by
  unfold Core.runGuardsAux
  cases g ctx with
  | error e => simp
  | ok gr => cases gr <;> simp

/-- Projections of handleAfterHook that hold in every branch. -/
theorem handleAfterHook_proj (m : Core.RouteMatch) (input : Core.InputResult)
    (reads : Nat) (hctx : Option Core.Context) (ctx1 : Core.Context) :
    (Core.handleAfterHook m input reads hctx ctx1).validated = input ∧
    (Core.handleAfterHook m input reads hctx ctx1).bodyReads = reads ∧
    (Core.handleAfterHook m input reads hctx ctx1).hookCtx = hctx ∧
    (Core.handleAfterHook m input reads hctx ctx1).guardTrace =
      (Core.guardPhase m ctx1).2.1 ∧
    (Core.handleAfterHook m input reads hctx ctx1).guardCtxs =
      (Core.guardPhase m ctx1).2.2 := by
  rcases hgp : Core.guardPhase m ctx1 with ⟨go, tr, cs⟩
  unfold Core.handleAfterHook
  rw [hgp]
  cases go with
  | denied r c => simp
  | fault e c => simp
  | allowed c =>
    dsimp only
    cases hh : m.handler.handler c <;> simp

/-- If handleAfterHook finished with a guard denial, the guard phase denied
and the record is the denial record. -/
theorem handleAfterHook_denied (m : Core.RouteMatch) (input : Core.InputResult)
    (reads : Nat) (hctx : Option Core.Context) (ctx1 : Core.Context)
    (hfin : (Core.handleAfterHook m input reads hctx ctx1).finish = .guardDenied) :
    ∃ r c tr cs, Core.guardPhase m ctx1 = (.denied r c, tr, cs) ∧
      Core.handleAfterHook m input reads hctx ctx1 =
        ⟨.ok (r, c), input, reads, hctx, tr, cs, false, none, .guardDenied⟩ := by
  rcases hgp : Core.guardPhase m ctx1 with ⟨go, tr, cs⟩
  unfold Core.handleAfterHook at hfin ⊢
  rw [hgp] at hfin ⊢
  cases go with
  | denied r c => exact ⟨r, c, tr, cs, rfl, rfl⟩
  | fault e c => simp at hfin
  | allowed c =>
    dsimp only at hfin
    cases hh : m.handler.handler c <;> rw [hh] at hfin <;> simp at hfin

theorem handle_eq_matched (handlers : List Core.Handler) (req : Request)
    (onReq : Option Core.OnRequestHandler) (m : Core.RouteMatch)
    (hm : Core.matchRoutes handlers req.method req.url = some m) :
    Core.handle handlers req onReq = Core.handleMatched m req onReq := by
  unfold Core.handle
  rw [hm]

/-- A matched run either stopped at a hook fault (with the initial context
recorded and no guard activity), or went through handleAfterHook on a
context whose validated input is the one computed before the hook. -/
theorem handleMatched_shape (m : Core.RouteMatch) (req : Request)
    (onReq : Option Core.OnRequestHandler) :
    (∃ e, Core.handleMatched m req onReq =
        ⟨.error (e, none), (Core.initialContext m req).input,
         (Core.extractBody m req).2, some (Core.initialContext m req),
         [], [], false, none, .hookFault⟩)
    ∨ ∃ ctx1 hctx, ctx1.input = (Core.initialContext m req).input ∧
        Core.handleMatched m req onReq =
          Core.handleAfterHook m (Core.initialContext m req).input
            (Core.extractBody m req).2 hctx ctx1 := by
  unfold Core.handleMatched
  cases onReq with
  | none => exact Or.inr ⟨_, _, rfl, rfl⟩
  | some f =>
    dsimp only
    cases hf : f (Core.initialContext m req) with
    | error e => exact Or.inl ⟨e, rfl⟩
    | ok patch => exact Or.inr ⟨_, _, applyPatch_input _ _, rfl⟩

/-- Every guard of a run observes the run's validated input: validation is
complete before the guard chain starts. -/
theorem handle_guardCtxs_input (handlers : List Core.Handler) (req : Request)
    (onReq : Option Core.OnRequestHandler) :
    ∀ c ∈ (Core.handle handlers req onReq).guardCtxs,
      c.input = (Core.handle handlers req onReq).validated := by
  cases hm : Core.matchRoutes handlers req.method req.url with
  | none =>
    unfold Core.handle
    rw [hm]
    simp
  | some m =>
    rw [handle_eq_matched handlers req onReq m hm]
    rcases handleMatched_shape m req onReq with ⟨e, hE⟩ | ⟨ctx1, hctx, hinp, hE⟩
    · rw [hE]
      simp
    · rw [hE]
      obtain ⟨hval, _, _, _, hctxs⟩ := handleAfterHook_proj m
        (Core.initialContext m req).input (Core.extractBody m req).2 hctx ctx1
      rw [hval, hctxs]
      intro c hc
      rw [(guardPhase_ctxs_core m ctx1 c hc).2.2, hinp]

/-- The validated input of a matched run is exactly validateInputs applied
to the extracted raw facts (body parsed only under a declared body schema). -/
theorem handle_validated_eq (handlers : List Core.Handler) (req : Request)
    (onReq : Option Core.OnRequestHandler) (m : Core.RouteMatch)
    (hm : Core.matchRoutes handlers req.method req.url = some m) :
    (Core.handle handlers req onReq).validated =
      Core.validateInputs m.handler.request
        ⟨paramsToVal m.params, queryToVal (Core.parseQuery req.searchParams),
         (Core.extractBody m req).1⟩ := by
  rw [handle_eq_matched handlers req onReq m hm]
  rcases handleMatched_shape m req onReq with ⟨e, hE⟩ | ⟨ctx1, hctx, hinp, hE⟩
  · rw [hE]
    rfl
  · rw [hE]
    exact (handleAfterHook_proj m (Core.initialContext m req).input
      (Core.extractBody m req).2 hctx ctx1).1

theorem guardPhase_trace_ne_nil (m : Core.RouteMatch) (ctx : Core.Context)
    (gs : List Core.GuardFn) (hgs : m.handler.guards = some gs) (hne : gs ≠ []) :
    (Core.guardPhase m ctx).2.1 ≠ [] := by
  unfold Core.guardPhase
  rw [hgs]
  rcases gs with _ | ⟨g, rest⟩
  · exact absurd rfl hne
  · show ((if 0 < (g :: rest).length then Core.runGuardsAux 0 (g :: rest) ctx
      else (Core.GuardOutcome.allowed ctx, [], []))).2.1 ≠ []
    rw [if_pos (by simp)]
    exact runGuardsAux_trace_ne_nil 0 g rest ctx

/-- Whenever a matched route has a non-empty guard list and the hook did
not fault, at least the first guard runs: the guard chain does not branch
on the validation outcome. -/
theorem handle_guards_execute (handlers : List Core.Handler) (req : Request)
    (onReq : Option Core.OnRequestHandler) (m : Core.RouteMatch)
    (gs : List Core.GuardFn)
    (hm : Core.matchRoutes handlers req.method req.url = some m)
    (hgs : m.handler.guards = some gs) (hne : gs ≠ [])
    (hnf : (Core.handle handlers req onReq).finish ≠ .hookFault) :
    (Core.handle handlers req onReq).guardTrace ≠ [] := by
  rw [handle_eq_matched handlers req onReq m hm] at hnf ⊢
  rcases handleMatched_shape m req onReq with ⟨e, hE⟩ | ⟨ctx1, hctx, hinp, hE⟩
  · rw [hE] at hnf
    simp at hnf
  · rw [hE]
    obtain ⟨_, _, _, htr, _⟩ := handleAfterHook_proj m
      (Core.initialContext m req).input (Core.extractBody m req).2 hctx ctx1
    rw [htr]
    exact guardPhase_trace_ne_nil m ctx1 gs hgs hne

/-- The full structure of a run that finished in a guard denial: the chain
ran guards 0..k, guard k returned the deny on its observed context, that
deny is the final result, and the handler never ran. -/
theorem handle_denied_spec (handlers : List Core.Handler) (req : Request)
    (onReq : Option Core.OnRequestHandler) (m : Core.RouteMatch)
    (hm : Core.matchRoutes handlers req.method req.url = some m)
    (hfin : (Core.handle handlers req onReq).finish = .guardDenied) :
    (Core.handle handlers req onReq).handlerRan = false ∧
    ∃ gs k g c r, m.handler.guards = some gs ∧ gs[k]? = some g ∧
      (Core.handle handlers req onReq).guardCtxs[k]? = some c ∧
      g c = .ok (.deny r) ∧
      (Core.handle handlers req onReq).result = .ok (r, c) ∧
      (Core.handle handlers req onReq).guardTrace = natRangeFrom 0 (k + 1) := by
  rw [handle_eq_matched handlers req onReq m hm] at hfin ⊢
  rcases handleMatched_shape m req onReq with ⟨e, hE⟩ | ⟨ctx1, hctx, hinp, hE⟩
  · rw [hE] at hfin
    simp at hfin
  · rw [hE] at hfin ⊢
    obtain ⟨r, c, tr, cs, hgp, hrec⟩ := handleAfterHook_denied m
      (Core.initialContext m req).input (Core.extractBody m req).2 hctx ctx1 hfin
    rw [hrec]
    obtain ⟨gs, hgs, hrun⟩ := guardPhase_denied m ctx1 r c tr cs hgp
    obtain ⟨k, htr, hlen, hcs, g, hg, hdeny⟩ :=
      runGuardsAux_denied gs 0 ctx1 r c tr cs hrun
    exact ⟨rfl, gs, k, g, c, r, hgs, hg, hcs, hdeny, rfl, htr⟩

/-
Lemmas about locals accumulation through constant-allow guards (C7).
-/

theorem runGuardsAux_constAllow_out (ps : List (List (String × Val))) (i : Nat)
    (ctx : Core.Context) :
    (Core.runGuardsAux i (ps.map constAllow) ctx).1 =
      .allowed { ctx with locals := mergeAll ctx.locals ps } ∧
    (Core.runGuardsAux i (ps.map constAllow) ctx).2.1 = natRangeFrom i ps.length := by
  induction ps generalizing i ctx with
  | nil => exact ⟨rfl, rfl⟩
  | cons p ps ih =>
    constructor
    · show (Core.runGuardsAux i (constAllow p :: ps.map constAllow) ctx).1 = _
      unfold Core.runGuardsAux
      dsimp only [constAllow]
      exact (ih (i + 1) (Core.applyPatch ctx (some p))).1
    · show (Core.runGuardsAux i (constAllow p :: ps.map constAllow) ctx).2.1 = _
      unfold Core.runGuardsAux
      dsimp only [constAllow]
      show i :: (Core.runGuardsAux (i + 1) (ps.map constAllow)
        (Core.applyPatch ctx (some p))).2.1 = _
      rw [(ih (i + 1) (Core.applyPatch ctx (some p))).2]
      rfl

theorem runGuardsAux_constAllow_ctxs (ps : List (List (String × Val))) (i : Nat)
    (ctx : Core.Context) :
    ∀ j c, (Core.runGuardsAux i (ps.map constAllow) ctx).2.2[j]? = some c →
      c.locals = mergeAll ctx.locals (ps.take j) := by
  induction ps generalizing i ctx with
  | nil =>
    intro j c h
    simp [Core.runGuardsAux] at h
  | cons p ps ih =>
    intro j c h
    replace h : (ctx :: (Core.runGuardsAux (i + 1) (ps.map constAllow)
        (Core.applyPatch ctx (some p))).2.2)[j]? = some c := h
    cases j with
    | zero =>
      simp at h
      subst h
      rfl
    | succ j' =>
      simp only [List.getElem?_cons_succ] at h
      exact ih (i + 1) (Core.applyPatch ctx (some p)) j' c h

theorem guardPhase_constAllow (m : Core.RouteMatch) (ctx1 : Core.Context)
    (ps : List (List (String × Val)))
    (hgs : m.handler.guards = some (ps.map constAllow)) :
    (Core.guardPhase m ctx1).1 =
      .allowed { ctx1 with locals := mergeAll ctx1.locals ps } ∧
    (∀ j c, (Core.guardPhase m ctx1).2.2[j]? = some c →
      c.locals = mergeAll ctx1.locals (ps.take j)) := by
  unfold Core.guardPhase
  rw [hgs]
  by_cases h : 0 < (ps.map constAllow).length
  · show ((if 0 < (ps.map constAllow).length then
        Core.runGuardsAux 0 (ps.map constAllow) ctx1
        else (Core.GuardOutcome.allowed ctx1, [], []))).1 = _ ∧ _
    rw [if_pos h]
    refine ⟨(runGuardsAux_constAllow_out ps 0 ctx1).1, ?_⟩
    show ∀ j c, ((if 0 < (ps.map constAllow).length then
        Core.runGuardsAux 0 (ps.map constAllow) ctx1
        else (Core.GuardOutcome.allowed ctx1, [], []))).2.2[j]? = some c → _
    rw [if_pos h]
    exact runGuardsAux_constAllow_ctxs ps 0 ctx1
  · have hps : ps = [] := by
      simpa using List.eq_nil_of_length_eq_zero (Nat.eq_zero_of_not_pos
        (by simpa using h))
    subst hps
    exact ⟨rfl, by intro j c hc; simp at hc⟩

theorem handleAfterHook_allowed_handler (m : Core.RouteMatch)
    (input : Core.InputResult) (reads : Nat) (hctx : Option Core.Context)
    (ctx1 cfin : Core.Context)
    (hall : (Core.guardPhase m ctx1).1 = .allowed cfin) :
    (Core.handleAfterHook m input reads hctx ctx1).handlerRan = true ∧
    (Core.handleAfterHook m input reads hctx ctx1).handlerCtx = some cfin := by
  rcases hgp : Core.guardPhase m ctx1 with ⟨go, tr, cs⟩
  rw [hgp] at hall
  simp at hall
  subst hall
  unfold Core.handleAfterHook
  rw [hgp]
  dsimp only
  cases m.handler.handler cfin <;> simp

/-- With a constant hook the run goes straight into handleAfterHook with
the hook's patch merged onto the (empty-locals) initial context. -/
theorem handleMatched_hook_const (m : Core.RouteMatch) (req : Request)
    (p0 : List (String × Val)) :
    Core.handleMatched m req (some (fun _ => Except.ok (some p0))) =
      Core.handleAfterHook m (Core.initialContext m req).input
        (Core.extractBody m req).2 (some (Core.initialContext m req))
        (Core.applyPatch (Core.initialContext m req) (some p0)) := rfl

/-
Lemmas about body-stream consumption (C4).
-/

theorem extractBody_reads_le_one (m : Core.RouteMatch) (req : Request) :
    (Core.extractBody m req).2 ≤ 1 := by
  unfold Core.extractBody
  rcases hr : m.handler.request with _ | rs <;> simp only [hr]
  · simp
  · rcases hb : rs.body with _ | s <;> simp only [hb]
    · simp
    · unfold Core.parseBody
      rcases hs : req.bodyStream with _ | b <;> simp only [hs]
      · simp
      · rcases hj : b.jsonResult with e | v <;> simp only [hj] <;> simp

theorem extractBody_reads_zero (m : Core.RouteMatch) (req : Request)
    (h : m.handler.request.bind Core.RequestSchemas.body = none) :
    (Core.extractBody m req).2 = 0 := by
  unfold Core.extractBody
  rcases hr : m.handler.request with _ | rs
  · simp only [hr]
  · simp only [hr]
    rw [hr] at h
    simp [Option.bind] at h
    simp [h]

theorem handle_bodyReads_none (handlers : List Core.Handler) (req : Request)
    (onReq : Option Core.OnRequestHandler)
    (hm : Core.matchRoutes handlers req.method req.url = none) :
    (Core.handle handlers req onReq).bodyReads = 0 := by
  unfold Core.handle
  rw [hm]

theorem handle_bodyReads_some (handlers : List Core.Handler) (req : Request)
    (onReq : Option Core.OnRequestHandler) (m : Core.RouteMatch)
    (hm : Core.matchRoutes handlers req.method req.url = some m) :
    (Core.handle handlers req onReq).bodyReads = (Core.extractBody m req).2 := by
  rw [handle_eq_matched handlers req onReq m hm]
  rcases handleMatched_shape m req onReq with ⟨e, hE⟩ | ⟨ctx1, hctx, hinp, hE⟩
  · rw [hE]
  · rw [hE]
    exact (handleAfterHook_proj m (Core.initialContext m req).input
      (Core.extractBody m req).2 hctx ctx1).2.1

/-
The claims.
-/

/-- Claim C1: for every matched request, validation runs before the guard
chain (every guard observes the already-computed validated input) and the
guards run regardless of whether validatedInput.ok is true (the first guard
executes with no condition on the validation outcome); if some guard denies
while the request carries invalid input, the final response is that guard's
deny response — not a validation-error response — and the handler never
executes. -/
theorem nimble_validation_then_guards_unconditional (handlers : List Core.Handler)
    (req : Request) (onReq : Option Core.OnRequestHandler) (m : Core.RouteMatch)
    (hm : Core.matchRoutes handlers req.method req.url = some m) :
    ((Core.handle handlers req onReq).validated =
      Core.validateInputs m.handler.request
        ⟨paramsToVal m.params, queryToVal (Core.parseQuery req.searchParams),
         (Core.extractBody m req).1⟩)
    ∧ (∀ c ∈ (Core.handle handlers req onReq).guardCtxs,
        c.input = (Core.handle handlers req onReq).validated)
    ∧ ((Core.handle handlers req onReq).finish ≠ .hookFault →
        ∀ gs, m.handler.guards = some gs → gs ≠ [] →
          (Core.handle handlers req onReq).guardTrace ≠ [])
    ∧ (∀ failed issues rawv,
        (Core.handle handlers req onReq).validated = .fail failed issues rawv →
        (Core.handle handlers req onReq).finish = .guardDenied →
        (Core.handle handlers req onReq).handlerRan = false ∧
        ∃ (gs : List Core.GuardFn) (k : Nat) (g : Core.GuardFn)
          (c : Core.Context) (r : Response),
          m.handler.guards = some gs ∧ gs[k]? = some g ∧
          (Core.handle handlers req onReq).guardCtxs[k]? = some c ∧
          g c = .ok (.deny r) ∧
          (Core.handle handlers req onReq).result = .ok (r, c)) := by
  refine ⟨handle_validated_eq handlers req onReq m hm,
          handle_guardCtxs_input handlers req onReq,
          fun hnf gs hgs hne => handle_guards_execute handlers req onReq m gs hm hgs hne hnf,
          fun failed issues rawv hfail hden => ?_⟩
  obtain ⟨h1, gs, k, g, c, r, hgs, hg, hcs, hdeny, hres, htr⟩ :=
    handle_denied_spec handlers req onReq m hm hden
  exact ⟨h1, gs, k, g, c, r, hgs, hg, hcs, hdeny, hres⟩

theorem nimble_validation_then_guards_unconditional_witness :
    ((Core.handle [wHandler] wReq none).validated =
      Core.validateInputs wHandler.request
        ⟨paramsToVal [], queryToVal (Core.parseQuery wReq.searchParams),
         (Core.extractBody ⟨wHandler, []⟩ wReq).1⟩)
    ∧ (∀ c ∈ (Core.handle [wHandler] wReq none).guardCtxs,
        c.input = (Core.handle [wHandler] wReq none).validated)
    ∧ ((Core.handle [wHandler] wReq none).finish ≠ .hookFault →
        ∀ gs, wHandler.guards = some gs → gs ≠ [] →
          (Core.handle [wHandler] wReq none).guardTrace ≠ [])
    ∧ (∀ failed issues rawv,
        (Core.handle [wHandler] wReq none).validated = .fail failed issues rawv →
        (Core.handle [wHandler] wReq none).finish = .guardDenied →
        (Core.handle [wHandler] wReq none).handlerRan = false ∧
        ∃ (gs : List Core.GuardFn) (k : Nat) (g : Core.GuardFn)
          (c : Core.Context) (r : Response),
          wHandler.guards = some gs ∧ gs[k]? = some g ∧
          (Core.handle [wHandler] wReq none).guardCtxs[k]? = some c ∧
          g c = .ok (.deny r) ∧
          (Core.handle [wHandler] wReq none).result = .ok (r, c)) :=
  nimble_validation_then_guards_unconditional [wHandler] wReq none
    ⟨wHandler, []⟩ rfl

/-- Claim C2: whenever a guard in the chain denies, evaluation stops
immediately: the guards that ran are exactly 0..k where k denied, the
handler never executes, and the k-th guard's deny response (returned on the
context it observed) is the final response. -/
theorem nimble_guard_deny_stops_chain (handlers : List Core.Handler)
    (req : Request) (onReq : Option Core.OnRequestHandler) (m : Core.RouteMatch)
    (hm : Core.matchRoutes handlers req.method req.url = some m)
    (hden : (Core.handle handlers req onReq).finish = .guardDenied) :
    (Core.handle handlers req onReq).handlerRan = false ∧
    ∃ gs k g c r, m.handler.guards = some gs ∧ gs[k]? = some g ∧
      (Core.handle handlers req onReq).guardCtxs[k]? = some c ∧
      g c = .ok (.deny r) ∧
      (Core.handle handlers req onReq).result = .ok (r, c) ∧
      (Core.handle handlers req onReq).guardTrace = natRangeFrom 0 (k + 1) :=
  handle_denied_spec handlers req onReq m hm hden

theorem nimble_guard_deny_stops_chain_witness :
    (Core.handle [wHandler] wReq none).handlerRan = false ∧
    ∃ gs k g c r, wHandler.guards = some gs ∧ gs[k]? = some g ∧
      (Core.handle [wHandler] wReq none).guardCtxs[k]? = some c ∧
      g c = .ok (.deny r) ∧
      (Core.handle [wHandler] wReq none).result = .ok (r, c) ∧
      (Core.handle [wHandler] wReq none).guardTrace = natRangeFrom 0 (k + 1) :=
  nimble_guard_deny_stops_chain [wHandler] wReq none ⟨wHandler, []⟩ rfl rfl

/-- Claim C4: the core reads the transport body stream only when the
matched route declares a body schema — a route with no body schema leaves
the stream untouched — and in every run the core consumes the stream at
most once. -/
theorem nimble_body_stream_lazy_at_most_once (handlers : List Core.Handler)
    (req : Request) (onReq : Option Core.OnRequestHandler) :
    ((∀ m, Core.matchRoutes handlers req.method req.url = some m →
        m.handler.request.bind Core.RequestSchemas.body = none) →
      (Core.handle handlers req onReq).bodyReads = 0)
    ∧ (Core.handle handlers req onReq).bodyReads ≤ 1 := by
  cases hm : Core.matchRoutes handlers req.method req.url with
  | none =>
    rw [handle_bodyReads_none handlers req onReq hm]
    exact ⟨fun _ => rfl, by simp⟩
  | some m =>
    rw [handle_bodyReads_some handlers req onReq m hm]
    exact ⟨fun h => extractBody_reads_zero m req (h m rfl),
           extractBody_reads_le_one m req⟩

theorem nimble_body_stream_lazy_at_most_once_witness :
    (Core.handle [wNoBodyHandler] wReqJson none).bodyReads = 0 ∧
    (Core.handle [wNoBodyHandler] wReqJson none).bodyReads ≤ 1 :=
  ⟨(nimble_body_stream_lazy_at_most_once [wNoBodyHandler] wReqJson none).1
    (fun m hm => by
      have hm' : some (⟨wNoBodyHandler, []⟩ : Core.RouteMatch) = some m := hm
      cases hm'
      rfl),
   (nimble_body_stream_lazy_at_most_once [wNoBodyHandler] wReqJson none).2⟩

/-- Claim C7: locals accumulate by immutable key-wise override. With a
hook patch p0 and guards contributing patches ps, the hook observed the
pristine initial context (empty locals), the j-th guard observed exactly
the merges of the patches before it, and the handler's context resolves
every key to the last producer that set it (patch wins on conflict). The
recorded earlier contexts are unchanged by later merges. -/
theorem nimble_locals_immutable_accumulation (handlers : List Core.Handler)
    (req : Request) (p0 : List (String × Val)) (ps : List (List (String × Val)))
    (m : Core.RouteMatch)
    (hm : Core.matchRoutes handlers req.method req.url = some m)
    (hgs : m.handler.guards = some (ps.map constAllow)) :
    (Core.handle handlers req (some (fun _ => Except.ok (some p0)))).hookCtx =
      some (Core.initialContext m req)
    ∧ (Core.initialContext m req).locals = []
    ∧ (∀ j c, (Core.handle handlers req
          (some (fun _ => Except.ok (some p0)))).guardCtxs[j]? = some c →
        c.locals = mergeAll (recMerge [] p0) (ps.take j))
    ∧ (Core.handle handlers req (some (fun _ => Except.ok (some p0)))).handlerRan = true
    ∧ ∃ ch, (Core.handle handlers req
          (some (fun _ => Except.ok (some p0)))).handlerCtx = some ch
        ∧ ch.locals = mergeAll (recMerge [] p0) ps
        ∧ ∀ k, alookup ch.locals k = lastW (p0 :: ps) k := by
  rw [handle_eq_matched handlers req (some (fun _ => Except.ok (some p0))) m hm,
    handleMatched_hook_const m req p0]
  obtain ⟨hval, hreads, hhctx, htr, hctxs⟩ := handleAfterHook_proj m
    (Core.initialContext m req).input (Core.extractBody m req).2
    (some (Core.initialContext m req))
    (Core.applyPatch (Core.initialContext m req) (some p0))
  obtain ⟨hout, hgctxs⟩ := guardPhase_constAllow m
    (Core.applyPatch (Core.initialContext m req) (some p0)) ps hgs
  obtain ⟨hrun, hhandctx⟩ := handleAfterHook_allowed_handler m
    (Core.initialContext m req).input (Core.extractBody m req).2
    (some (Core.initialContext m req))
    (Core.applyPatch (Core.initialContext m req) (some p0)) _ hout
  refine ⟨hhctx, rfl, ?_, hrun, ?_⟩
  · intro j c hc
    rw [hctxs] at hc
    exact hgctxs j c hc
  · refine ⟨_, hhandctx, rfl, fun k => ?_⟩
    show alookup (mergeAll (Core.applyPatch (Core.initialContext m req)
      (some p0)).locals ps) k = _
    rw [mergeAll_alookup]
    show ovOr (lastW ps k) (alookup (recMerge [] p0) k) = _
    rw [recMerge_alookup]
    show ovOr (lastW ps k) (ovOr (alookup p0 k) (alookup [] k)) = _
    rw [show alookup ([] : List (String × Val)) k = none from rfl,
      ovOr_none_right, ← lastW_cons]

theorem nimble_locals_immutable_accumulation_witness :
    (Core.handle [wC7Handler] wReq
        (some (fun _ => Except.ok (some [("role", Val.str "user")])))).hookCtx =
      some (Core.initialContext ⟨wC7Handler, []⟩ wReq)
    ∧ (Core.initialContext ⟨wC7Handler, []⟩ wReq).locals = []
    ∧ (∀ j c, (Core.handle [wC7Handler] wReq
          (some (fun _ => Except.ok (some [("role", Val.str "user")])))).guardCtxs[j]? =
            some c →
        c.locals = mergeAll (recMerge [] [("role", Val.str "user")])
          ([[("role", Val.str "admin")]].take j))
    ∧ (Core.handle [wC7Handler] wReq
        (some (fun _ => Except.ok (some [("role", Val.str "user")])))).handlerRan = true
    ∧ ∃ ch, (Core.handle [wC7Handler] wReq
          (some (fun _ => Except.ok (some [("role", Val.str "user")])))).handlerCtx =
            some ch
        ∧ ch.locals = mergeAll (recMerge [] [("role", Val.str "user")])
            [[("role", Val.str "admin")]]
        ∧ ∀ k, alookup ch.locals k =
            lastW [[("role", Val.str "user")], [("role", Val.str "admin")]] k :=
  nimble_locals_immutable_accumulation [wC7Handler] wReq
    [("role", Val.str "user")] [[("role", Val.str "admin")]]
    ⟨wC7Handler, []⟩ rfl rfl

/-- Claim C3: validation is aggregated, not fail-fast. Whatever each of
the three parts independently contributes (runPart gives the pass-through
for an undeclared part, the validated value for a passing schema, and the
part tag with its tagged issues for a failing schema), when two or more
parts fail the result is the failure carrying the concatenation of every
part's issues in one list — and the failure constructor exposes raw values
only, no validated value. -/
theorem nimble_validation_aggregates_all_parts (s : Core.RequestSchemas)
    (raw : Core.RawTriple)
    (pVal qVal bVal : Val)
    (pFail qFail bFail : List Core.Part)
    (pIss qIss bIss : List Core.ValidationIssue)
    (hp : Core.runPart s.params .params raw.params = (pVal, pFail, pIss))
    (hq : Core.runPart s.query .query raw.query = (qVal, qFail, qIss))
    (hb : Core.runPart s.body .body raw.body = (bVal, bFail, bIss))
    (htwo : 2 ≤ (pFail ++ qFail ++ bFail).length) :
    Core.validateInputs (some s) raw =
      .fail (pFail ++ qFail ++ bFail) (pIss ++ qIss ++ bIss) raw := by
  unfold Core.validateInputs
  dsimp only
  rw [hp, hq, hb]
  dsimp only
  rw [if_pos (by omega)]

theorem nimble_validation_aggregates_all_parts_witness :
    Core.validateInputs (some ⟨some wFailSchema, none, some wFailSchemaB⟩)
        ⟨.obj [], .obj [], .undef⟩ =
      .fail ([Core.Part.params] ++ [] ++ [Core.Part.body])
        (Core.tagIssues .params [⟨[Core.PathSeg.str "id"], "Expected number"⟩]
          ++ [] ++ Core.tagIssues .body [⟨[], "Required"⟩])
        ⟨.obj [], .obj [], .undef⟩ :=
  nimble_validation_aggregates_all_parts
    ⟨some wFailSchema, none, some wFailSchemaB⟩ ⟨.obj [], .obj [], .undef⟩
    Val.undef (Val.obj []) Val.undef
    [Core.Part.params] [] [Core.Part.body]
    (Core.tagIssues .params [⟨[Core.PathSeg.str "id"], "Expected number"⟩]) []
    (Core.tagIssues .body [⟨[], "Required"⟩])
    rfl rfl rfl (by decide)

/-- Claim C10: raw query extraction maps a key occurring exactly once to
its scalar string value and a key occurring more than once to the ordered
sequence of its values in appearance order, with no coercion. -/
theorem nimble_query_scalar_or_ordered_sequence (ps : List (String × String))
    (k : String) :
    (∀ v, valuesOf ps k = [v] →
      alookup (Core.parseQuery ps) k = some (.scalar v))
    ∧ (2 ≤ (valuesOf ps k).length →
      alookup (Core.parseQuery ps) k = some (.arr (valuesOf ps k))) := by
  constructor
  · intro v hv
    rw [parseQuery_alookup, hv]
    rfl
  · intro h
    rw [parseQuery_alookup]
    rcases hvs : valuesOf ps k with _ | ⟨w, _ | ⟨w2, rest2⟩⟩
    · rw [hvs] at h
      simp at h
    · rw [hvs] at h
      simp at h
    · rfl

theorem nimble_query_scalar_or_ordered_sequence_witness :
    alookup (Core.parseQuery [("tag", "a"), ("tag", "b"), ("page", "2")]) "tag" =
      some (.arr (valuesOf [("tag", "a"), ("tag", "b"), ("page", "2")] "tag"))
    ∧ alookup (Core.parseQuery [("tag", "a"), ("tag", "b"), ("page", "2")]) "page" =
      some (.scalar "2") :=
  ⟨(nimble_query_scalar_or_ordered_sequence
      [("tag", "a"), ("tag", "b"), ("page", "2")] "tag").2 (by decide),
   (nimble_query_scalar_or_ordered_sequence
      [("tag", "a"), ("tag", "b"), ("page", "2")] "page").1 "2" (by decide)⟩

/-- Claim C5: with no input config at all, validation short-circuits to the
ok result whose body, query and params all carry the "no schema" sentinel
(undefined), and the validator bridge's parse is never invoked: the result
does not depend on the validator (nor on the request or the raw params). -/
theorem nimble_no_schema_short_circuit (req req' : Request)
    (params params' : List (String × Option String))
    (v v' : Option Adapter.ValidatorAdapter) :
    Adapter.validateInput req params none v = .ok (.ok .undef .undef .undef)
    ∧ Adapter.validateInput req params none v =
      Adapter.validateInput req' params' none v' :=
  ⟨rfl, rfl⟩

theorem runSchemaPart_some_validator (sch : Option Val)
    (v : Adapter.ValidatorAdapter) (missing : String) (data : Val) :
    ∃ val es, Adapter.runSchemaPart sch (some v) missing data = .ok (val, es) := by
  cases sch with
  | none => exact ⟨.undef, [], rfl⟩
  | some schema =>
    rcases hv : v schema data with d | es
    · refine ⟨d, [], ?_⟩
      unfold Adapter.runSchemaPart
      dsimp only
      rw [hv]
    · refine ⟨.undef, es, ?_⟩
      unfold Adapter.runSchemaPart
      dsimp only
      rw [hv]

/-- Claim C6: a body parse failure never raises out of extraction. For
any failure of the content-type-dispatched platform read (JSON, form or
text branch alike), parseBody yields exactly one ValidationError at path
["body"], whose message is "Invalid JSON" when the thrown message is
JSON-specific and the underlying message otherwise; with a body schema
declared and a validator configured, validateInput folds that error into
the same aggregated ok:false result (returning a value, never a thrown
error), and the failure constructor carries the errors only — no body
value. -/
theorem nimble_body_parse_failure_never_raises (req : Request)
    (params : List (String × Option String)) (cfg : Adapter.InputConfig)
    (v : Adapter.ValidatorAdapter) (schema : Val) (msg : String)
    (hfail : Adapter.bodyRead req = .error msg)
    (hbody : cfg.body = some schema) :
    Adapter.parseBody req =
      .err [⟨["body"], if strIncludes msg "JSON" then "Invalid JSON" else msg⟩]
    ∧ (strIncludes msg "JSON" = true →
        Adapter.parseBody req = .err [⟨["body"], "Invalid JSON"⟩])
    ∧ (strIncludes msg "JSON" = false →
        Adapter.parseBody req = .err [⟨["body"], msg⟩])
    ∧ ∃ rest, Adapter.validateInput req params (some cfg) (some v) =
        .ok (.fail (Adapter.ValidationError.mk ["body"]
          (if strIncludes msg "JSON" then "Invalid JSON" else msg) :: rest)) := by
  have hpb : Adapter.parseBody req =
      .err [⟨["body"], if strIncludes msg "JSON" then "Invalid JSON" else msg⟩] := by
    unfold Adapter.parseBody
    rw [hfail]
  refine ⟨hpb, fun h => by rw [hpb]; simp [h], fun h => by rw [hpb]; simp [h], ?_⟩
  obtain ⟨qv, e2, hq2⟩ := runSchemaPart_some_validator cfg.query v
    "Validator required when using input.query schema"
    (.obj (Adapter.parseQuery req.searchParams))
  obtain ⟨pv, e3, hp3⟩ := runSchemaPart_some_validator cfg.params v
    "Validator required when using input.params schema"
    (paramsToVal params)
  refine ⟨e2 ++ e3, ?_⟩
  unfold Adapter.validateInput
  dsimp only
  rw [hbody]
  dsimp only
  rw [hpb]
  dsimp only
  rw [hq2]
  dsimp only
  rw [hp3]
  dsimp only
  rw [if_pos (by simp)]
  simp

theorem nimble_body_parse_failure_never_raises_witness :
    Adapter.parseBody wReqBadJson =
      .err [⟨["body"], "Invalid JSON"⟩]
    ∧ Adapter.parseBody wReqBadForm =
      .err [⟨["body"], "Could not parse content as FormData"⟩]
    ∧ (∃ rest, Adapter.validateInput wReqBadJson []
        (some ⟨some (.str "schema"), none, none⟩) (some (fun _ _ => .ok .undef)) =
        .ok (.fail (Adapter.ValidationError.mk ["body"] "Invalid JSON" :: rest)))
    ∧ (∃ rest, Adapter.validateInput wReqBadForm []
        (some ⟨some (.str "schema"), none, none⟩) (some (fun _ _ => .ok .undef)) =
        .ok (.fail (Adapter.ValidationError.mk ["body"]
          "Could not parse content as FormData" :: rest))) := by
  have hjson := nimble_body_parse_failure_never_raises wReqBadJson []
    ⟨some (.str "schema"), none, none⟩ (fun _ _ => .ok .undef) (.str "schema")
    "Unexpected token i is not valid JSON" rfl rfl
  have hform := nimble_body_parse_failure_never_raises wReqBadForm []
    ⟨some (.str "schema"), none, none⟩ (fun _ _ => .ok .undef) (.str "schema")
    "Could not parse content as FormData" rfl rfl
  refine ⟨hjson.2.1 (by decide), hform.2.2.1 (by decide), ?_, ?_⟩
  · obtain ⟨rest, h⟩ := hjson.2.2.2
    exact ⟨rest, h⟩
  · obtain ⟨rest, h⟩ := hform.2.2.2
    exact ⟨rest, h⟩

/-- Claim C8 (code evidence): the missing-validator diagnostic is raised by
validateInput while handling a request — the check sits on the per-request
validation path and names the schema part, not the route — whereas the
project documentation specifies a startup failure naming the route; no
startup code inspects the routes' input configs at all. -/
theorem nimble_missing_validator_throws_at_request_time :
    Adapter.validateInput wReqJson []
        (some ⟨some (.str "schema"), none, none⟩) none =
      .error "Validator required when using input.body schema" := rfl

/-- Claim C9: a fault escaping the pipeline is caught exactly once by the
fetch boundary and converted into exactly one terminal response by the
configured fault handler; with no custom handler, the default returns the
fixed sanitized 500 response, whose content is independent of the fault;
a normal result passes through untouched. -/
theorem nimble_error_boundary_sanitized (init : Runtime2.NimbleInit)
    (req : Request) (uuid : String) :
    (∀ e, Runtime2.handle2 (Runtime2.initHandlers init) req = .error e →
      Runtime2.nimbleFetch init req uuid =
        Runtime2.initOnError init
          ⟨req, Runtime2.resolveErrorRequestId req uuid, e⟩)
    ∧ (Runtime2.initOnError init = Runtime2.defaultOnError →
      ∀ e, Runtime2.handle2 (Runtime2.initHandlers init) req = .error e →
        Runtime2.nimbleFetch init req uuid =
          .json (.obj [("error", .str "Internal Server Error")]) 500)
    ∧ (∀ resp, Runtime2.handle2 (Runtime2.initHandlers init) req = .ok resp →
      Runtime2.nimbleFetch init req uuid = resp) := by
  refine ⟨fun e he => ?_, fun hdef e he => ?_, fun resp hr => ?_⟩
  · unfold Runtime2.nimbleFetch
    rw [he]
  · unfold Runtime2.nimbleFetch
    rw [he, hdef]
    rfl
  · unfold Runtime2.nimbleFetch
    rw [hr]

theorem nimble_error_boundary_sanitized_witness :
    Runtime2.nimbleFetch (.list [wThrowHandler]) wReq "uuid-1" =
      .json (.obj [("error", .str "Internal Server Error")]) 500 :=
  (nimble_error_boundary_sanitized (.list [wThrowHandler]) wReq "uuid-1").2.1
    rfl "boom" rfl
